import Mathlib

/-!
Verification of the JSON streaming storage writer
(`plaso/storage/json_streaming_writer.py`).

The development shallowly embeds the writer's record-projection pipeline:
attribute values, attribute containers, the field-merge engine
(`_GetFieldValues`), the JSON encoder configured with
`ensure_ascii=False, sort_keys=True`, and the dual-sink
`AddAttributeContainer` / `UpdateAttributeContainer` operations together
with the durable store facade they delegate to.
-/

namespace JSONStreaming

/-- A Python attribute value as it occurs on an attribute container.
`identifier` stands for an `acstore` `AttributeContainerIdentifier`
instance; `datetime` stands for a `dfdatetime` `DateTimeValues` instance;
`null` is Python `None`.  Lists and dicts mirror Python lists and dicts. -/
inductive AttrValue where
  | null : AttrValue
  | bool : Bool → AttrValue
  | int : Int → AttrValue
  | str : String → AttrValue
  | identifier : Nat → AttrValue
  | datetime : Nat → AttrValue
  | list : List AttrValue → AttrValue
  | dict : List (String × AttrValue) → AttrValue

/-- Python `value is None`. -/
def isNull : AttrValue → Bool
  | .null => true
  | _ => false

/-- `isinstance(value, interface.AttributeContainerIdentifier)`. -/
def isIdentifier : AttrValue → Bool
  | .identifier _ => true
  | _ => false

/-- `isinstance(value, dfdatetime_interface.DateTimeValues)`. -/
def isDateTime : AttrValue → Bool
  | .datetime _ => true
  | _ => false

/-- `isinstance(value, list) and value and isinstance(value[0], DateTimeValues)`:
a non-empty Python list whose first element is a date-time value. -/
def isDateTimeList : AttrValue → Bool
  | .list (x :: _) => isDateTime x
  | _ => false

/-- Whether a value is a Python dict. -/
def isDict : AttrValue → Bool
  | .dict _ => true
  | _ => false

/-- The field-value mapping built by `_GetFieldValues`: a Python dict from
field name to value, in insertion order. -/
abbrev FieldMap := List (String × AttrValue)

/-- Python dict assignment `m[k] = v`: updates the binding in place when the
key is present (keeping its position), otherwise appends the new binding. -/
def dictSet : FieldMap → String → AttrValue → FieldMap
  | [], k, v => [(k, v)]
  | (k', v') :: rest, k, v =>
      if k' = k then (k', v) :: rest else (k', v') :: dictSet rest k v

/-- Python dict lookup `m.get(k)`: first (and only) binding for `k`. -/
def dictGet : FieldMap → String → Option AttrValue
  | [], _ => none
  | (k', v) :: rest, k => if k' = k then some v else dictGet rest k

/-- Python `k in m`. -/
def dictContains (m : FieldMap) (k : String) : Bool :=
  (dictGet m k).isSome

/-- An attribute container as seen by the writer: its `CONTAINER_TYPE`, its
`GetAttributes()` sequence of (name, value) pairs, and the linkage
identifiers returned by `GetEventDataIdentifier`,
`GetEventDataStreamIdentifier` and `GetEventTagIdentifier` (a `none`
models an absent/`None` identifier). -/
structure Container where
  container_type : String
  attributes : List (String × AttrValue)
  event_data_identifier : Option Nat := none
  event_data_stream_identifier : Option Nat := none
  event_tag_identifier : Option Nat := none

/-- A Python exception escaping one of the collaborators. -/
inductive PyErr where
  | notWritable : PyErr
  | formattingError : PyErr
  | typeError : PyErr
deriving DecidableEq, Repr

/-- The external Field Formatting Capability
(`JSONFieldFormattingHelper.GetFormattedField`), abstracted over: it
receives the field name, the event, and the optional event data, event
data stream and event tag, and either returns a formatted value or raises. -/
def Fmt : Type :=
  String → Container → Option Container → Option Container → Option Container →
    Except PyErr AttrValue

/-- Modelled from the spec: `JSONAttributeContainerSerializer.WriteSerializedDict`
(from `plaso.serializer.json_serializer`, a module of this repository that
is not under `src/`).  Per the spec (sections 4.2 and 6) it value-transforms
its input into a dict-shaped ("serialized") representation rather than
leaving the raw object. -/
def WriteSerializedDict (v : AttrValue) : AttrValue :=
  .dict [("__value__", v)]

/-- `attribute_name[0] == '_'`: the attribute name's first character is an
underscore (attribute names are nonempty Python identifiers). -/
def headIsUnderscore (s : String) : Bool :=
  match s.data with
  | [] => false
  | c :: _ => c = '_'

/-- The event-data loop of `_GetFieldValues` (source lines 90-115): skip
identifier and date-time values, skip non-empty lists of date-time values,
skip protected names (leading underscore) other than `_parser_chain`;
render every kept value through the formatting helper; rename
`_parser_chain` to `parser` before insertion. -/
def applyEventData (fmt : Fmt) (event : Container) (ed : Container)
    (eds tag : Option Container) :
    FieldMap → List (String × AttrValue) → Except PyErr FieldMap
  | acc, [] => .ok acc
  | acc, (name, value) :: rest =>
      if isIdentifier value || isDateTime value then
        applyEventData fmt event ed eds tag acc rest
      else if isDateTimeList value then
        applyEventData fmt event ed eds tag acc rest
      else if headIsUnderscore name && name ≠ "_parser_chain" then
        applyEventData fmt event ed eds tag acc rest
      else
        match fmt name event (some ed) eds tag with
        | .error e => .error e
        | .ok fv =>
            let outName := if name = "_parser_chain" then "parser" else name
            applyEventData fmt event ed eds tag (dictSet acc outName fv) rest

/-- The output key the event-data loop would use for an attribute name. -/
def edOutName (n : String) : String :=
  if n = "_parser_chain" then "parser" else n

/-- The event-data-stream loop of `_GetFieldValues` (source lines 117-125):
every attribute is copied raw, except that `path_spec` is renamed to
`pathspec` and value-transformed through the structured serializer. -/
def applyStream : FieldMap → List (String × AttrValue) → FieldMap
  | acc, [] => acc
  | acc, (name, value) :: rest =>
      if name = "path_spec" then
        applyStream (dictSet acc "pathspec" (WriteSerializedDict value)) rest
      else
        applyStream (dictSet acc name value) rest

/-- The output key the stream loop uses for an attribute name. -/
def streamOutName (n : String) : String :=
  if n = "path_spec" then "pathspec" else n

/-- The event loop of `_GetFieldValues` (source lines 127-138): skip
identifier values; serialize the `date_time` attribute through the
structured serializer; copy everything else raw. -/
def applyEvent : FieldMap → List (String × AttrValue) → FieldMap
  | acc, [] => acc
  | acc, (name, value) :: rest =>
      if isIdentifier value then applyEvent acc rest
      else
        let value := if name = "date_time" then WriteSerializedDict value else value
        applyEvent (dictSet acc name value) rest

/-- The generated-fields loop of `_GetFieldValues` (source lines 140-148):
for each name in `['display_name', 'filename', 'inode']`, when the name is
not in the map, `field_values.get(field_name, None)` is consulted and,
being `None` inside that branch, the formatting helper computes the field
and the result is inserted. -/
def applyGenerated (fmt : Fmt) (event : Container)
    (ed eds tag : Option Container) :
    FieldMap → List String → Except PyErr FieldMap
  | acc, [] => .ok acc
  | acc, f :: rest =>
      if dictContains acc f then
        applyGenerated fmt event ed eds tag acc rest
      else
        let fv0 := (dictGet acc f).getD AttrValue.null
        if isNull fv0 then
          match fmt f event ed eds tag with
          | .error e => .error e
          | .ok fv => applyGenerated fmt event ed eds tag (dictSet acc f fv) rest
        else
          applyGenerated fmt event ed eds tag acc rest

/-- The event-tag loop of `_GetFieldValues` (source lines 160-166): copy
the tag's non-identifier attributes into the nested tag mapping. -/
def tagFold : FieldMap → List (String × AttrValue) → FieldMap
  | acc, [] => acc
  | acc, (name, value) :: rest =>
      if isIdentifier value then tagFold acc rest
      else tagFold (dictSet acc name value) rest

/-- The nested event-tag mapping of `_GetFieldValues` (source lines
155-168): its own two marker fields followed by the tag's non-identifier
attributes. -/
def tagValues (tag : Container) : FieldMap :=
  tagFold
    [("__container_type__", .str "event_tag"),
     ("__type__", .str "AttributeContainer")]
    tag.attributes

/-- `JSONStreamingStorageWriter._GetFieldValues` (source lines 74-170):
seed the two marker fields; merge event data (rendered), event data stream
(raw, with `path_spec` renamed and serialized), the event itself (raw,
identifiers skipped, `date_time` serialized); add the generated fields;
add the computed `message` field; add the nested `tag` mapping when an
event tag is present.  An exception raised by the formatting helper
propagates. -/
def GetFieldValues (fmt : Fmt) (event : Container)
    (event_data event_data_stream event_tag : Option Container) :
    Except PyErr FieldMap :=
  let acc : FieldMap :=
    [("__container_type__", .str "event"),
     ("__type__", .str "AttributeContainer")]
  let step1 : Except PyErr FieldMap :=
    match event_data with
    | some ed => applyEventData fmt event ed event_data_stream event_tag acc ed.attributes
    | none => .ok acc
  match step1 with
  | .error e => .error e
  | .ok acc =>
    let acc :=
      match event_data_stream with
      | some eds => applyStream acc eds.attributes
      | none => acc
    -- `if event:` -- an attribute container object is always truthy.
    let acc := applyEvent acc event.attributes
    match applyGenerated fmt event event_data event_data_stream event_tag acc
        ["display_name", "filename", "inode"] with
    | .error e => .error e
    | .ok acc =>
      match fmt "message" event event_data event_data_stream event_tag with
      | .error e => .error e
      | .ok mv =>
        let acc := dictSet acc "message" mv
        let acc :=
          match event_tag with
          | some tag => dictSet acc "tag" (.dict (tagValues tag))
          | none => acc
        .ok acc

/-! ### The JSON encoder

`json.JSONEncoder(ensure_ascii=False, sort_keys=True)` (source line 34):
keys of every object are emitted in lexicographic order, characters at or
above `U+0020` other than `"` and `\` are emitted literally (so non-ASCII
characters are never escaped), control characters are escaped, and the
default separators `', '` and `': '` are used.  Values that are not
JSON-serializable (identifier objects, raw date-time objects) raise.  The
encoder is written with a structural fuel argument; exhausted fuel models
the recursion limit and also raises. -/

/-- Lexicographic comparison of character lists by code point, the order in
which Python compares strings. -/
def lexLe : List Char → List Char → Bool
  | [], _ => true
  | _ :: _, [] => false
  | a :: as, b :: bs => if a = b then lexLe as bs else decide (a < b)

/-- Lexicographic comparison of strings by code point. -/
def strLe (a b : String) : Bool := lexLe a.data b.data

/-- The key ordering used by `sort_keys=True`: lexicographic on the key. -/
def keyLe (p q : String × AttrValue) : Prop := strLe p.1 q.1 = true

instance : DecidableRel keyLe :=
  fun p q => inferInstanceAs (Decidable (strLe p.1 q.1 = true))

/-- Sorting an object's bindings by key, as `sort_keys=True` does. -/
def sortFields (l : List (String × AttrValue)) : List (String × AttrValue) :=
  l.insertionSort keyLe

/-- Lower-case hexadecimal digit, as used in Python's `\uXXXX` escapes. -/
def hexDigit (n : Nat) : Char :=
  if n < 10 then Char.ofNat (48 + n) else Char.ofNat (87 + n)

/-- Escaping of a single character inside a JSON string, with
`ensure_ascii=False`: only `"`, `\` and control characters are escaped;
every character at or above `U+0020` -- in particular every non-ASCII
character -- is emitted literally. -/
def escapeChar (c : Char) : List Char :=
  if c = '"' then ['\\', '"']
  else if c = '\\' then ['\\', '\\']
  else if c = '\n' then ['\\', 'n']
  else if c = '\t' then ['\\', 't']
  else if c = '\r' then ['\\', 'r']
  else if c.toNat = 8 then ['\\', 'b']
  else if c.toNat = 12 then ['\\', 'f']
  else if c.toNat < 32 then
    ['\\', 'u', '0', '0', hexDigit (c.toNat / 16), hexDigit (c.toNat % 16)]
  else [c]

/-- Escaping of a whole JSON string body. -/
def escapeString (s : String) : String :=
  String.mk (List.flatten (s.data.map escapeChar))

/-- A quoted JSON string literal. -/
def quoteJSON (s : String) : String :=
  "\"" ++ escapeString s ++ "\""

/-- Joining already-encoded items with the default item separator `', '`. -/
def joinComma : List String → String
  | [] => ""
  | [s] => s
  | s :: rest => s ++ ", " ++ joinComma rest

/-- Sequencing a list of fallible encodings. -/
def listExcept : List (Except Unit String) → Except Unit (List String)
  | [] => .ok []
  | .error e :: _ => .error e
  | .ok s :: rest =>
      match listExcept rest with
      | .error e => .error e
      | .ok ss => .ok (s :: ss)

/-- The recursive JSON encoding of one value.  Objects are emitted with
their bindings sorted by key; `identifier` and `datetime` values raise
(`TypeError: not JSON serializable`); exhausted fuel raises (the
recursion limit). -/
def encodeV : Nat → AttrValue → Except Unit String
  | 0, _ => .error ()
  | _ + 1, .null => .ok "null"
  | _ + 1, .bool b => .ok (if b then "true" else "false")
  | _ + 1, .int n => .ok (toString n)
  | _ + 1, .str s => .ok (quoteJSON s)
  | _ + 1, .identifier _ => .error ()
  | _ + 1, .datetime _ => .error ()
  | f + 1, .list xs =>
      match listExcept (xs.map (encodeV f)) with
      | .error e => .error e
      | .ok parts => .ok ("[" ++ joinComma parts ++ "]")
  | f + 1, .dict fs =>
      match listExcept ((sortFields fs).map
          (fun p => match encodeV f p.2 with
            | .error e => .error e
            | .ok s => .ok (quoteJSON p.1 ++ ": " ++ s))) with
      | .error e => .error e
      | .ok parts => .ok ("\x7b" ++ joinComma parts ++ "\x7d")

/-- Python's recursion limit, which bounds the nesting depth the encoder
can traverse before raising `RecursionError`. -/
def jsonRecursionLimit : Nat := 1000

/-- `self._json_encoder.encode(field_values)`: encode the field-value
mapping as one JSON object. -/
def jsonEncode (m : FieldMap) : Except Unit String :=
  encodeV jsonRecursionLimit (.dict m)

/-! ### The durable store facade and the dual-sink writer -/

/-- Modelled from the spec: the durable Container Store Facade -- the real
storage writer created by `storage_factory.StorageFactory.CreateStorageWriter('sqlite')`
(from `plaso.storage`, modules of this repository that are not under
`src/`).  Per the spec (sections 4.4, 6 and 8) it supports open/close,
add, update and fetch-by-identifier, and rejects mutating operations with
a not-writable failure while it is not open.  `table` holds the records
reachable by `GetAttributeContainerByIdentifier`, keyed by container type
and identifier. -/
structure StoreFacade where
  isOpen : Bool
  stored : List Container
  updated : List Container
  table : List ((String × Nat) × Container)

/-- Lookup of `table` by container type and identifier. -/
def tableLookup : List ((String × Nat) × Container) → String → Nat → Option Container
  | [], _, _ => none
  | ((t, i), c) :: rest, t', i' =>
      if t = t' ∧ i = i' then some c else tableLookup rest t' i'

/-- Modelled from the spec: `GetAttributeContainerByIdentifier` on the
facade returns the record or absence; the writer wraps the call in
`try/except`, so a raising lookup is also treated as absence. -/
def StoreFacade.GetById (s : StoreFacade) (t : String) (i : Nat) :
    Except PyErr (Option Container) :=
  .ok (tableLookup s.table t i)

/-- Modelled from the spec: `AddAttributeContainer` on the facade persists
the record when the facade is open and raises a not-writable failure
otherwise. -/
def StoreFacade.addContainer (s : StoreFacade) (c : Container) :
    Except PyErr StoreFacade :=
  if s.isOpen then .ok { s with stored := s.stored ++ [c] } else .error .notWritable

/-- Modelled from the spec: `UpdateAttributeContainer` on the facade
records the update when the facade is open and raises a not-writable
failure otherwise. -/
def StoreFacade.updateContainer (s : StoreFacade) (c : Container) :
    Except PyErr StoreFacade :=
  if s.isOpen then .ok { s with updated := s.updated ++ [c] } else .error .notWritable

/-- Modelled from the spec: `StoreFacade.Open` establishes the durable
store target. -/
def StoreFacade.openStore (s : StoreFacade) : StoreFacade :=
  { s with isOpen := true }

/-- Modelled from the spec: `StoreFacade.Close` releases the durable store
handle. -/
def StoreFacade.closeStore (s : StoreFacade) : StoreFacade :=
  { s with isOpen := false }

/-- The `JSONStreamingStorageWriter` state: the unused `output_file`
constructor argument (source line 31), the `_real_storage_writer`
delegate (set in `__init__`, source lines 42-43, and never cleared), and
the `_store` attribute toggled by `Open`/`Close`. -/
structure JWriter where
  output_file : Option Nat
  real_storage_writer : Option StoreFacade
  store : Option Bool

/-- `JSONStreamingStorageWriter.__init__(output_file)` (source lines
23-46): stores `output_file`, creates the delegate real storage writer
(not yet opened) and leaves `_store` unset. -/
def newWriter (output_file : Option Nat) : JWriter :=
  { output_file
    real_storage_writer := some { isOpen := false, stored := [], updated := [], table := [] }
    store := none }

/-- `JSONStreamingStorageWriter._RaiseIfNotWritable` (source lines 48-51):
raises only when `self._real_storage_writer` is falsy -- which never
happens, since `__init__` always sets it and nothing clears it. -/
def JWriter.RaiseIfNotWritable (w : JWriter) : Except PyErr Unit :=
  match w.real_storage_writer with
  | none => .error .notWritable
  | some _ => .ok ()

/-- `JSONStreamingStorageWriter.Open` (source lines 53-58): opens the
delegate on the temporary file and sets `_store`. -/
def JWriter.OpenWriter (w : JWriter) : JWriter :=
  match w.real_storage_writer with
  | some f => { w with real_storage_writer := some f.openStore, store := some true }
  | none => w

/-- `JSONStreamingStorageWriter.Close` (source lines 60-72): closes the
delegate (when set), clears `_store` and removes the temporary file. -/
def JWriter.CloseWriter (w : JWriter) : JWriter :=
  match w.real_storage_writer with
  | some f => { w with real_storage_writer := some f.closeStore, store := none }
  | none => { w with store := none }

/-- The event-data resolution of `AddAttributeContainer` (source lines
184-192): look up the event's event-data identifier; a missing identifier,
an absent record or a raising lookup all yield `None`. -/
def resolveEventData (f : StoreFacade) (c : Container) : Option Container :=
  match c.event_data_identifier with
  | some i =>
      match f.GetById "event_data" i with
      | .ok r => r
      | .error _ => none
  | none => none

/-- The event-data-stream resolution (source lines 194-202): only
attempted when event data resolved. -/
def resolveEventDataStream (f : StoreFacade) (ed : Option Container) : Option Container :=
  match ed with
  | some ed =>
      match ed.event_data_stream_identifier with
      | some i =>
          match f.GetById "event_data_stream" i with
          | .ok r => r
          | .error _ => none
      | none => none
  | none => none

/-- The event-tag resolution (source lines 204-212). -/
def resolveEventTag (f : StoreFacade) (c : Container) : Option Container :=
  match c.event_tag_identifier with
  | some i =>
      match f.GetById "event_tag" i with
      | .ok r => r
      | .error _ => none
  | none => none

/-- The outcome of one `AddAttributeContainer` call: the exception that
escaped the call (if any), the writer state afterwards, and the JSON line
printed to stdout (if any).  Side effects that happened before an
exception was raised are retained. -/
structure AddResult where
  error : Option PyErr
  writer : JWriter
  emitted : Option String

/-- `JSONStreamingStorageWriter.AddAttributeContainer` (source lines
172-226).  For an `event` container: resolve the related records
(best-effort), build the field values -- an exception raised there
propagates and nothing further happens -- then try to encode and print the
JSON line, silently swallowing encoding failures, and finally forward the
container to the real storage writer, whose failure propagates.  For any
other container: only the forwarding happens. -/
def JWriter.AddAttributeContainer (fmt : Fmt) (w : JWriter) (c : Container) : AddResult :=
  match w.real_storage_writer with
  | none => { error := some .typeError, writer := w, emitted := none }
  | some f =>
      if c.container_type = "event" then
        let event_data := resolveEventData f c
        let event_data_stream := resolveEventDataStream f event_data
        let event_tag := resolveEventTag f c
        match GetFieldValues fmt c event_data event_data_stream event_tag with
        | .error e => { error := some e, writer := w, emitted := none }
        | .ok fv =>
            let emitted :=
              match jsonEncode fv with
              | .ok s => some s
              | .error _ => none
            match f.addContainer c with
            | .ok f' =>
                { error := none
                  writer := { w with real_storage_writer := some f' }
                  emitted }
            | .error e => { error := some e, writer := w, emitted }
      else
        match f.addContainer c with
        | .ok f' =>
            { error := none
              writer := { w with real_storage_writer := some f' }
              emitted := none }
        | .error e => { error := some e, writer := w, emitted := none }

/-- `JSONStreamingStorageWriter.UpdateAttributeContainer` (source lines
228-230): a pure pass-through to the real storage writer. -/
def JWriter.UpdateAttributeContainer (w : JWriter) (c : Container) :
    Option PyErr × JWriter :=
  match w.real_storage_writer with
  | none => (some .typeError, w)
  | some f =>
      match f.updateContainer c with
      | .ok f' => (none, { w with real_storage_writer := some f' })
      | .error e => (some e, w)

/-! ### Concrete fixtures used to evaluate the pipeline -/

/-- A formatting helper that always succeeds, returning a string derived
from the requested field name. -/
def okFmt : Fmt := fun n _ _ _ _ => .ok (.str ("f_" ++ n))

/-- A formatting helper that always raises. -/
def failFmt : Fmt := fun _ _ _ _ _ => .error .formattingError

/-- An event with a single plain attribute. -/
def evPlain : Container := { container_type := "event", attributes := [("timestamp", .int 5)] }

/-- An event whose `display_name` attribute is explicitly `None`. -/
def evNullName : Container :=
  { container_type := "event", attributes := [("display_name", .null)] }

/-- A stream-metadata record carrying an identifier-typed attribute and an
internal provenance attribute. -/
def edsBad : Container :=
  { container_type := "event_data_stream"
    attributes := [("owner_ref", .identifier 7), ("_parser_chain", .str "A,B")] }

/-- A secondary-data record sharing the field name `ref` with the event. -/
def edShared : Container :=
  { container_type := "event_data", attributes := [("ref", .str "sec")] }

/-- A secondary-data record sharing the field name `timestamp` with
`evPlain`. -/
def edTs : Container :=
  { container_type := "event_data", attributes := [("timestamp", .str "sec-ts")] }

/-- An event whose `ref` attribute is identifier-typed. -/
def evShared : Container :=
  { container_type := "event", attributes := [("ref", .identifier 3)] }

/-- An event carrying a raw date-time value under a name other than
`date_time`; the resulting field-value map cannot be JSON-encoded. -/
def evRawDT : Container :=
  { container_type := "event", attributes := [("when", .datetime 9)] }

/-! ### Dictionary lemmas -/

theorem lexLe_total (l₁ l₂ : List Char) : lexLe l₁ l₂ = true ∨ lexLe l₂ l₁ = true := by
  induction l₁ generalizing l₂ with
  | nil => exact .inl rfl
  | cons a as ih =>
      cases l₂ with
      | nil => exact .inr rfl
      | cons b bs =>
          by_cases hab : a = b
          · subst hab
            rcases ih bs with h | h
            · exact .inl (by simpa [lexLe] using h)
            · exact .inr (by simpa [lexLe] using h)
          · rcases Ne.lt_or_lt hab with hlt | hlt
            · exact .inl (by simp [lexLe, hab, hlt])
            · exact .inr (by simp [lexLe, Ne.symm hab, hlt])

theorem lexLe_trans (l₁ l₂ l₃ : List Char) (h₁ : lexLe l₁ l₂ = true)
    (h₂ : lexLe l₂ l₃ = true) : lexLe l₁ l₃ = true := by
  induction l₁ generalizing l₂ l₃ with
  | nil => rfl
  | cons a as ih =>
      cases l₂ with
      | nil => simp [lexLe] at h₁
      | cons b bs =>
          cases l₃ with
          | nil => simp [lexLe] at h₂
          | cons c cs =>
              by_cases hab : a = b
              · subst hab
                by_cases hbc : a = c
                · subst hbc
                  simp only [lexLe, if_pos rfl] at h₁ h₂ ⊢
                  exact ih bs cs h₁ h₂
                · simp only [lexLe, if_pos rfl, if_neg hbc] at h₁ h₂ ⊢
                  exact h₂
              · by_cases hbc : b = c
                · subst hbc
                  simp only [lexLe, if_neg hab] at h₁ ⊢
                  exact h₁
                · simp only [lexLe, if_neg hab, if_neg hbc, decide_eq_true_eq] at h₁ h₂
                  have hac : a < c := lt_trans h₁ h₂
                  simp [lexLe, ne_of_lt hac, hac]

theorem lexLe_antisymm (l₁ l₂ : List Char) (h₁ : lexLe l₁ l₂ = true)
    (h₂ : lexLe l₂ l₁ = true) : l₁ = l₂ := by
  induction l₁ generalizing l₂ with
  | nil =>
      cases l₂ with
      | nil => rfl
      | cons b bs => simp [lexLe] at h₂
  | cons a as ih =>
      cases l₂ with
      | nil => simp [lexLe] at h₁
      | cons b bs =>
          by_cases hab : a = b
          · subst hab
            simp only [lexLe, if_pos rfl] at h₁ h₂
            rw [ih bs h₁ h₂]
          · simp only [lexLe, if_neg hab, if_neg (Ne.symm hab),
              decide_eq_true_eq] at h₁ h₂
            exact absurd h₂ (not_lt_of_gt h₁)

theorem strLe_antisymm (a b : String) (h₁ : strLe a b = true)
    (h₂ : strLe b a = true) : a = b := by
  apply String.ext
  exact lexLe_antisymm _ _ h₁ h₂

theorem dictGet_dictSet_self (m : FieldMap) (k : String) (v : AttrValue) :
    dictGet (dictSet m k v) k = some v := by
  induction m with
  | nil => simp [dictSet, dictGet]
  | cons p rest ih =>
      obtain ⟨k', v'⟩ := p
      by_cases h : k' = k
      · subst h; simp [dictSet, dictGet]
      · simp [dictSet, dictGet, h, ih]

theorem dictGet_dictSet_ne (m : FieldMap) (k : String) (v : AttrValue)
    (k' : String) (h : k' ≠ k) :
    dictGet (dictSet m k v) k' = dictGet m k' := by
  induction m with
  | nil => simp [dictSet, dictGet, Ne.symm h]
  | cons p rest ih =>
      obtain ⟨k₀, v₀⟩ := p
      simp only [dictSet]
      by_cases h0 : k₀ = k
      · rw [if_pos h0]; subst h0; simp [dictGet, Ne.symm h]
      · rw [if_neg h0]
        by_cases h1 : k₀ = k' <;> simp [dictGet, h1, ih]

theorem dictContains_dictSet (m : FieldMap) (k k' : String) (v : AttrValue) :
    dictContains (dictSet m k v) k' = true ↔ k' = k ∨ dictContains m k' = true := by
  by_cases h : k' = k
  · subst h; simp [dictContains, dictGet_dictSet_self]
  · simp [dictContains, dictGet_dictSet_ne m k v k' h, h]

/-! ### Lemmas about the event loop -/

theorem applyEvent_get_not_mem (acc : FieldMap) (attrs : List (String × AttrValue))
    (n : String) (h : n ∉ attrs.map Prod.fst) :
    dictGet (applyEvent acc attrs) n = dictGet acc n := by
  induction attrs generalizing acc with
  | nil => rfl
  | cons p rest ih =>
      obtain ⟨name, value⟩ := p
      simp only [List.map_cons, List.mem_cons] at h
      push_neg at h
      obtain ⟨hne, hrest⟩ := h
      simp only [applyEvent]
      by_cases hid : isIdentifier value
      · simp [hid, ih _ hrest]
      · simp [hid, ih _ hrest, dictGet_dictSet_ne _ _ _ _ hne]

theorem applyEvent_get_mem (acc : FieldMap) (attrs : List (String × AttrValue))
    (n : String) (v : AttrValue) (hnd : (attrs.map Prod.fst).Nodup)
    (hmem : (n, v) ∈ attrs) (hid : isIdentifier v = false) :
    dictGet (applyEvent acc attrs) n =
      some (if n = "date_time" then WriteSerializedDict v else v) := by
  induction attrs generalizing acc with
  | nil => cases hmem
  | cons p rest ih =>
      obtain ⟨name, value⟩ := p
      simp only [List.map_cons, List.nodup_cons] at hnd
      obtain ⟨hhead, htail⟩ := hnd
      rcases List.mem_cons.mp hmem with heq | hmem'
      · obtain ⟨hn, hv⟩ := Prod.mk.injEq .. ▸ heq
        subst hn; subst hv
        simp only [applyEvent, hid, Bool.false_eq_true, if_false]
        rw [applyEvent_get_not_mem _ _ _ hhead, dictGet_dictSet_self]
      · have hn_in : n ∈ rest.map Prod.fst := List.mem_map_of_mem Prod.fst hmem'
        have hne : n ≠ name := fun hh => hhead (hh ▸ hn_in)
        simp only [applyEvent]
        by_cases hidh : isIdentifier value <;> simp [hidh, ih _ htail hmem']

theorem applyEvent_contains (acc : FieldMap) (attrs : List (String × AttrValue))
    (k : String) :
    dictContains (applyEvent acc attrs) k = true ↔
      dictContains acc k = true ∨ ∃ v, (k, v) ∈ attrs ∧ isIdentifier v = false := by
  induction attrs generalizing acc with
  | nil => simp [applyEvent]
  | cons p rest ih =>
      obtain ⟨name, value⟩ := p
      simp only [applyEvent]
      by_cases hid : isIdentifier value
      · rw [if_pos hid, ih]
        constructor
        · rintro (hacc | ⟨v, hv, hidv⟩)
          · exact .inl hacc
          · exact .inr ⟨v, List.mem_cons_of_mem _ hv, hidv⟩
        · rintro (hacc | ⟨v, hv, hidv⟩)
          · exact .inl hacc
          · rcases List.mem_cons.mp hv with heq | hv'
            · obtain ⟨hk, hveq⟩ := Prod.mk.injEq .. ▸ heq
              subst hveq
              rw [hid] at hidv; cases hidv
            · exact .inr ⟨v, hv', hidv⟩
      · rw [if_neg hid, ih]
        constructor
        · rintro (hacc | ⟨v, hv, hidv⟩)
          · rcases (dictContains_dictSet acc name k _).mp hacc with hk | hacc'
            · refine .inr ⟨value, ?_, ?_⟩
              · exact hk ▸ List.mem_cons_self _ _
              · simpa using hid
            · exact .inl hacc'
          · exact .inr ⟨v, List.mem_cons_of_mem _ hv, hidv⟩
        · rintro (hacc | ⟨v, hv, hidv⟩)
          · exact .inl ((dictContains_dictSet acc name k _).mpr (.inr hacc))
          · rcases List.mem_cons.mp hv with heq | hv'
            · obtain ⟨hk, hveq⟩ := Prod.mk.injEq .. ▸ heq
              exact .inl ((dictContains_dictSet acc name k _).mpr (.inl hk))
            · exact .inr ⟨v, hv', hidv⟩

theorem applyEvent_get_new (acc : FieldMap) (attrs : List (String × AttrValue))
    (k : String) (v : AttrValue)
    (h : dictGet (applyEvent acc attrs) k = some v) :
    dictGet acc k = some v ∨ isIdentifier v = false := by
  induction attrs generalizing acc with
  | nil => exact .inl h
  | cons p rest ih =>
      obtain ⟨name, value⟩ := p
      simp only [applyEvent] at h
      by_cases hid : isIdentifier value
      · rw [if_pos hid] at h; exact ih _ h
      · rw [if_neg hid] at h
        rcases ih _ h with h' | h'
        · by_cases hk : k = name
          · subst hk
            rw [dictGet_dictSet_self] at h'
            obtain rfl : (if k = "date_time" then WriteSerializedDict value else value) = v :=
              Option.some.inj h'
            by_cases hdt : k = "date_time"
            · simp [hdt, WriteSerializedDict, isIdentifier]
            · right; simpa [hdt] using Bool.of_not_eq_true hid
          · rw [dictGet_dictSet_ne _ _ _ _ hk] at h'; exact .inl h'
        · exact .inr h'

/-! ### Lemmas about the event-data loop -/

theorem applyEventData_ok_nil (fmt : Fmt) (event ed : Container)
    (eds tag : Option Container) (acc acc' : FieldMap)
    (h : applyEventData fmt event ed eds tag acc [] = .ok acc') : acc' = acc := by
  simpa [applyEventData] using h.symm

theorem applyEventData_stable (fmt : Fmt) (event ed : Container)
    (eds tag : Option Container) (acc acc' : FieldMap)
    (l : List (String × AttrValue)) (k : String)
    (hk : ∀ p ∈ l, edOutName p.1 ≠ k)
    (h : applyEventData fmt event ed eds tag acc l = .ok acc') :
    dictGet acc' k = dictGet acc k := by
  induction l generalizing acc with
  | nil => rw [applyEventData_ok_nil _ _ _ _ _ _ _ h]
  | cons p rest ih =>
      obtain ⟨name, value⟩ := p
      have hkhead : edOutName name ≠ k := hk _ (List.mem_cons_self _ _)
      have hktail : ∀ p ∈ rest, edOutName p.1 ≠ k :=
        fun p hp => hk p (List.mem_cons_of_mem _ hp)
      simp only [applyEventData] at h
      by_cases h1 : (isIdentifier value || isDateTime value) = true
      · rw [if_pos h1] at h; exact ih _ hktail h
      · rw [if_neg h1] at h
        by_cases h2 : isDateTimeList value = true
        · rw [if_pos h2] at h; exact ih _ hktail h
        · rw [if_neg h2] at h
          by_cases h3 : (headIsUnderscore name && decide (name ≠ "_parser_chain")) = true
          · rw [if_pos h3] at h; exact ih _ hktail h
          · rw [if_neg h3] at h
            cases hf : fmt name event (some ed) eds tag with
            | error e => rw [hf] at h; cases h
            | ok fv =>
                rw [hf] at h
                rw [ih _ hktail h, dictGet_dictSet_ne]
                exact fun hh => hkhead (by simpa [edOutName] using hh.symm)

theorem applyEventData_underscore (fmt : Fmt) (event ed : Container)
    (eds tag : Option Container) (acc acc' : FieldMap)
    (l : List (String × AttrValue)) (k : String)
    (hk : headIsUnderscore k = true)
    (h : applyEventData fmt event ed eds tag acc l = .ok acc') :
    dictGet acc' k = dictGet acc k := by
  have hkp : k ≠ "parser" := by
    intro hh; rw [hh] at hk; simp [headIsUnderscore] at hk
  induction l generalizing acc with
  | nil => rw [applyEventData_ok_nil _ _ _ _ _ _ _ h]
  | cons p rest ih =>
      obtain ⟨name, value⟩ := p
      simp only [applyEventData] at h
      by_cases h1 : (isIdentifier value || isDateTime value) = true
      · rw [if_pos h1] at h; exact ih _ h
      · rw [if_neg h1] at h
        by_cases h2 : isDateTimeList value = true
        · rw [if_pos h2] at h; exact ih _ h
        · rw [if_neg h2] at h
          by_cases h3 : (headIsUnderscore name && decide (name ≠ "_parser_chain")) = true
          · rw [if_pos h3] at h; exact ih _ h
          · rw [if_neg h3] at h
            cases hf : fmt name event (some ed) eds tag with
            | error e => rw [hf] at h; cases h
            | ok fv =>
                rw [hf] at h
                rw [ih _ h, dictGet_dictSet_ne]
                by_cases hpc : name = "_parser_chain"
                · rw [if_pos hpc]; exact hkp
                · rw [if_neg hpc]
                  intro hh
                  have hns : headIsUnderscore name = false := by
                    cases hb : headIsUnderscore name with
                    | false => rfl
                    | true =>
                        exfalso
                        apply h3
                        rw [hb]
                        simp [hpc]
                  rw [← hh] at hns
                  rw [hns] at hk
                  cases hk

theorem applyEventData_new_value (fmt : Fmt) (event ed : Container)
    (eds tag : Option Container) (acc acc' : FieldMap)
    (l : List (String × AttrValue)) (k : String) (v : AttrValue)
    (hfmt : ∀ n w, fmt n event (some ed) eds tag = .ok w →
      isIdentifier w = false ∧ isDateTime w = false)
    (h : applyEventData fmt event ed eds tag acc l = .ok acc')
    (hget : dictGet acc' k = some v) :
    dictGet acc k = some v ∨ (isIdentifier v = false ∧ isDateTime v = false) := by
  induction l generalizing acc with
  | nil => exact .inl (applyEventData_ok_nil _ _ _ _ _ _ _ h ▸ hget)
  | cons p rest ih =>
      obtain ⟨name, value⟩ := p
      simp only [applyEventData] at h
      by_cases h1 : (isIdentifier value || isDateTime value) = true
      · rw [if_pos h1] at h; exact ih _ h
      · rw [if_neg h1] at h
        by_cases h2 : isDateTimeList value = true
        · rw [if_pos h2] at h; exact ih _ h
        · rw [if_neg h2] at h
          by_cases h3 : (headIsUnderscore name && decide (name ≠ "_parser_chain")) = true
          · rw [if_pos h3] at h; exact ih _ h
          · rw [if_neg h3] at h
            cases hf : fmt name event (some ed) eds tag with
            | error e => rw [hf] at h; cases h
            | ok fv =>
                rw [hf] at h
                rcases ih _ h with h' | h'
                · by_cases hk : k = (if name = "_parser_chain" then "parser" else name)
                  · rw [hk, dictGet_dictSet_self] at h'
                    obtain rfl : fv = v := Option.some.inj h'
                    exact .inr (hfmt _ _ hf)
                  · rw [dictGet_dictSet_ne _ _ _ _ hk] at h'; exact .inl h'
                · exact .inr h'

theorem applyEventData_provenance (fmt : Fmt) (event ed : Container)
    (eds tag : Option Container) (acc acc' : FieldMap)
    (l : List (String × AttrValue)) (v : AttrValue)
    (hnd : (l.map Prod.fst).Nodup)
    (hmem : ("_parser_chain", v) ∈ l)
    (hid : isIdentifier v = false) (hdt : isDateTime v = false)
    (hdtl : isDateTimeList v = false)
    (hpn : "parser" ∉ l.map Prod.fst)
    (h : applyEventData fmt event ed eds tag acc l = .ok acc') :
    ∃ w, fmt "_parser_chain" event (some ed) eds tag = .ok w ∧
      dictGet acc' "parser" = some w := by
  induction l generalizing acc with
  | nil => cases hmem
  | cons p rest ih =>
      obtain ⟨name, value⟩ := p
      simp only [List.map_cons, List.nodup_cons] at hnd
      obtain ⟨hhead, htail⟩ := hnd
      simp only [List.map_cons, List.mem_cons] at hpn
      push_neg at hpn
      obtain ⟨hpn1, hpn2⟩ := hpn
      rcases List.mem_cons.mp hmem with heq | hmem'
      · have hn : name = "_parser_chain" := by
          simpa using congrArg Prod.fst heq.symm
        have hv : value = v := by
          simpa using congrArg Prod.snd heq.symm
        subst hn; subst hv
        simp only [applyEventData] at h
        rw [if_neg (by simp [hid, hdt]), if_neg (by simp [hdtl]),
          if_neg (by simp)] at h
        cases hf : fmt "_parser_chain" event (some ed) eds tag with
        | error e => rw [hf] at h; cases h
        | ok fv =>
            rw [hf] at h
            simp only [reduceIte] at h
            refine ⟨fv, rfl, ?_⟩
            rw [applyEventData_stable fmt event ed eds tag _ _ rest _ ?_ h,
              dictGet_dictSet_self]
            intro p hp
            have hp1 : p.1 ≠ "_parser_chain" := by
              intro hh
              exact hhead (hh ▸ List.mem_map_of_mem Prod.fst hp)
            have hp2 : p.1 ≠ "parser" := by
              intro hh
              exact hpn2 (hh ▸ List.mem_map_of_mem Prod.fst hp)
            simp only [edOutName]
            by_cases hpc : p.1 = "_parser_chain"
            · exact absurd hpc hp1
            · rw [if_neg hpc]; exact hp2
      · have hne : name ≠ "_parser_chain" := by
          intro hh
          exact hhead (hh ▸ List.mem_map_of_mem Prod.fst hmem')
        simp only [applyEventData] at h
        by_cases h1 : (isIdentifier value || isDateTime value) = true
        · rw [if_pos h1] at h; exact ih _ htail hmem' hpn2 h
        · rw [if_neg h1] at h
          by_cases h2 : isDateTimeList value = true
          · rw [if_pos h2] at h; exact ih _ htail hmem' hpn2 h
          · rw [if_neg h2] at h
            by_cases h3 : (headIsUnderscore name && decide (name ≠ "_parser_chain")) = true
            · rw [if_pos h3] at h; exact ih _ htail hmem' hpn2 h
            · rw [if_neg h3] at h
              cases hf : fmt name event (some ed) eds tag with
              | error e => rw [hf] at h; cases h
              | ok fv =>
                  rw [hf] at h
                  exact ih _ htail hmem' hpn2 h

/-! ### Lemmas about the event-data-stream loop -/

theorem applyStream_stable (acc : FieldMap) (l : List (String × AttrValue))
    (k : String) (hk : ∀ p ∈ l, streamOutName p.1 ≠ k) :
    dictGet (applyStream acc l) k = dictGet acc k := by
  induction l generalizing acc with
  | nil => rfl
  | cons p rest ih =>
      obtain ⟨name, value⟩ := p
      have hkhead : streamOutName name ≠ k := hk _ (List.mem_cons_self _ _)
      have hktail : ∀ p ∈ rest, streamOutName p.1 ≠ k :=
        fun p hp => hk p (List.mem_cons_of_mem _ hp)
      simp only [applyStream]
      by_cases hps : name = "path_spec"
      · rw [if_pos hps, ih _ hktail, dictGet_dictSet_ne]
        exact fun hh => hkhead (by simp [streamOutName, hps, hh])
      · rw [if_neg hps, ih _ hktail, dictGet_dictSet_ne]
        exact fun hh => hkhead (by simp [streamOutName, hps, hh])

theorem applyStream_path_spec (acc : FieldMap) (l : List (String × AttrValue)) :
    dictGet (applyStream acc l) "path_spec" = dictGet acc "path_spec" := by
  apply applyStream_stable
  intro p _
  simp only [streamOutName]
  by_cases hps : p.1 = "path_spec" <;> simp [hps]

theorem applyStream_pathspec (acc : FieldMap) (l : List (String × AttrValue))
    (v : AttrValue) (hnd : (l.map Prod.fst).Nodup)
    (hmem : ("path_spec", v) ∈ l) (hpn : "pathspec" ∉ l.map Prod.fst) :
    dictGet (applyStream acc l) "pathspec" = some (WriteSerializedDict v) := by
  induction l generalizing acc with
  | nil => cases hmem
  | cons p rest ih =>
      obtain ⟨name, value⟩ := p
      simp only [List.map_cons, List.nodup_cons] at hnd
      obtain ⟨hhead, htail⟩ := hnd
      simp only [List.map_cons, List.mem_cons] at hpn
      push_neg at hpn
      obtain ⟨hpn1, hpn2⟩ := hpn
      rcases List.mem_cons.mp hmem with heq | hmem'
      · have hn : name = "path_spec" := by
          simpa using congrArg Prod.fst heq.symm
        have hv : value = v := by
          simpa using congrArg Prod.snd heq.symm
        subst hn; subst hv
        simp only [applyStream, reduceIte]
        rw [applyStream_stable _ rest _ ?_, dictGet_dictSet_self]
        intro p hp
        have hp1 : p.1 ≠ "path_spec" := by
          intro hh
          exact hhead (hh ▸ List.mem_map_of_mem Prod.fst hp)
        have hp2 : p.1 ≠ "pathspec" := by
          intro hh
          exact hpn2 (hh ▸ List.mem_map_of_mem Prod.fst hp)
        simp only [streamOutName]
        rw [if_neg hp1]
        exact hp2
      · simp only [applyStream]
        by_cases hps : name = "path_spec" <;> simp [hps, ih _ htail hmem' hpn2]

/-! ### Lemmas about the generated-fields loop -/

theorem applyGenerated_ok_nil (fmt : Fmt) (event : Container)
    (ed eds tag : Option Container) (acc acc' : FieldMap)
    (h : applyGenerated fmt event ed eds tag acc [] = .ok acc') : acc' = acc := by
  simpa [applyGenerated] using h.symm

theorem applyGenerated_preserves (fmt : Fmt) (event : Container)
    (ed eds tag : Option Container) (acc acc' : FieldMap)
    (fields : List String) (f : String)
    (hc : dictContains acc f = true)
    (h : applyGenerated fmt event ed eds tag acc fields = .ok acc') :
    dictGet acc' f = dictGet acc f := by
  induction fields generalizing acc with
  | nil => rw [applyGenerated_ok_nil _ _ _ _ _ _ _ h]
  | cons g rest ih =>
      simp only [applyGenerated] at h
      by_cases hg : dictContains acc g = true
      · rw [if_pos hg] at h; exact ih _ hc h
      · rw [if_neg hg] at h
        have hfg : f ≠ g := fun hh => hg (hh ▸ hc)
        have hgn : dictGet acc g = none := by
          cases hget : dictGet acc g with
          | none => rfl
          | some w => exact absurd (by simp [dictContains, hget]) hg
        rw [hgn] at h
        simp only [Option.getD_none, isNull, if_true] at h
        cases hf : fmt g event ed eds tag with
        | error e => rw [hf] at h; cases h
        | ok fv =>
            rw [hf] at h
            have hc' : dictContains (dictSet acc g fv) f = true :=
              (dictContains_dictSet acc g f fv).mpr (.inr hc)
            rw [ih _ hc' h, dictGet_dictSet_ne _ _ _ _ hfg]

theorem applyGenerated_computes (fmt : Fmt) (event : Container)
    (ed eds tag : Option Container) (acc acc' : FieldMap)
    (fields : List String) (f : String)
    (hnd : fields.Nodup) (hf_mem : f ∈ fields)
    (hc : dictContains acc f = false)
    (h : applyGenerated fmt event ed eds tag acc fields = .ok acc') :
    ∃ w, fmt f event ed eds tag = .ok w ∧ dictGet acc' f = some w := by
  induction fields generalizing acc with
  | nil => cases hf_mem
  | cons g rest ih =>
      obtain ⟨hhead, htail⟩ := List.nodup_cons.mp hnd
      simp only [applyGenerated] at h
      rcases List.mem_cons.mp hf_mem with heq | hmem'
      · subst heq
        rw [if_neg (by simp [hc])] at h
        have hgn : dictGet acc f = none := by
          cases hget : dictGet acc f with
          | none => rfl
          | some w => simp [dictContains, hget] at hc
        rw [hgn] at h
        simp only [Option.getD_none, isNull, if_true] at h
        cases hf : fmt f event ed eds tag with
        | error e => rw [hf] at h; cases h
        | ok fv =>
            rw [hf] at h
            refine ⟨fv, rfl, ?_⟩
            have hc' : dictContains (dictSet acc f fv) f = true :=
              (dictContains_dictSet acc f f fv).mpr (.inl rfl)
            rw [applyGenerated_preserves _ _ _ _ _ _ _ _ _ hc' h,
              dictGet_dictSet_self]
      · have hfg : f ≠ g := fun hh => hhead (hh ▸ hmem')
        by_cases hg : dictContains acc g = true
        · rw [if_pos hg] at h; exact ih _ htail hmem' hc h
        · rw [if_neg hg] at h
          have hgn : dictGet acc g = none := by
            cases hget : dictGet acc g with
            | none => rfl
            | some w => exact absurd (by simp [dictContains, hget]) hg
          rw [hgn] at h
          simp only [Option.getD_none, isNull, if_true] at h
          cases hfmt : fmt g event ed eds tag with
          | error e => rw [hfmt] at h; cases h
          | ok fv =>
              rw [hfmt] at h
              have hc' : dictContains (dictSet acc g fv) f = false := by
                cases hcc : dictContains (dictSet acc g fv) f with
                | false => rfl
                | true =>
                    rcases (dictContains_dictSet acc g f fv).mp hcc with hh | hh
                    · exact absurd hh hfg
                    · rw [hh] at hc; cases hc
              exact ih _ htail hmem' hc' h

theorem applyGenerated_contains_mono (fmt : Fmt) (event : Container)
    (ed eds tag : Option Container) (acc acc' : FieldMap)
    (fields : List String) (k : String)
    (hc : dictContains acc k = true)
    (h : applyGenerated fmt event ed eds tag acc fields = .ok acc') :
    dictContains acc' k = true := by
  have := applyGenerated_preserves fmt event ed eds tag acc acc' fields k hc h
  simpa [dictContains, this] using hc

theorem applyGenerated_contains (fmt : Fmt) (event : Container)
    (ed eds tag : Option Container) (acc acc' : FieldMap)
    (fields : List String) (k : String)
    (h : applyGenerated fmt event ed eds tag acc fields = .ok acc') :
    dictContains acc' k = true ↔ dictContains acc k = true ∨ k ∈ fields := by
  induction fields generalizing acc with
  | nil =>
      rw [applyGenerated_ok_nil _ _ _ _ _ _ _ h]
      simp
  | cons g rest ih =>
      simp only [applyGenerated] at h
      by_cases hg : dictContains acc g = true
      · rw [if_pos hg] at h
        rw [ih _ h]
        constructor
        · rintro (hacc | hmem)
          · exact .inl hacc
          · exact .inr (List.mem_cons_of_mem _ hmem)
        · rintro (hacc | hmem)
          · exact .inl hacc
          · rcases List.mem_cons.mp hmem with heq | hmem'
            · exact .inl (heq ▸ hg)
            · exact .inr hmem'
      · rw [if_neg hg] at h
        have hgn : dictGet acc g = none := by
          cases hget : dictGet acc g with
          | none => rfl
          | some w => exact absurd (by simp [dictContains, hget]) hg
        rw [hgn] at h
        simp only [Option.getD_none, isNull, if_true] at h
        cases hf : fmt g event ed eds tag with
        | error e => rw [hf] at h; cases h
        | ok fv =>
            rw [hf] at h
            rw [ih _ h]
            constructor
            · rintro (hacc | hmem)
              · rcases (dictContains_dictSet acc g k fv).mp hacc with hh | hh
                · exact .inr (hh ▸ List.mem_cons_self _ _)
                · exact .inl hh
              · exact .inr (List.mem_cons_of_mem _ hmem)
            · rintro (hacc | hmem)
              · exact .inl ((dictContains_dictSet acc g k fv).mpr (.inr hacc))
              · rcases List.mem_cons.mp hmem with heq | hmem'
                · exact .inl ((dictContains_dictSet acc g k fv).mpr (.inl heq))
                · exact .inr hmem'

/-! ### Claim C1 -/

/-- C1 counterexample: with a formatting helper that raises,
`AddAttributeContainer` on an opened writer propagates the failure and the
durable write is skipped (the stored list stays empty), refuting the claim
that a failure raised while building the JSON projection never causes the
durable write to be skipped. -/
theorem C1_counterexample :
    ((newWriter none).OpenWriter.AddAttributeContainer failFmt evPlain).error =
      some .formattingError ∧
    (((newWriter none).OpenWriter.AddAttributeContainer failFmt evPlain)).writer.real_storage_writer.map
      (fun f => f.stored) = some [] :=
  ⟨rfl, rfl⟩

/-- C1 (amended): once the field-value map has been built successfully, the
durable write is never skipped: the container is forwarded to the durable
store whatever the outcome of JSON encoding and emission; but a failure
raised while building the field-value map (a formatting failure)
propagates out of `AddAttributeContainer` and the durable write is
skipped, as the counterexample shows. -/
theorem C1_persisted_when_map_builds (fmt : Fmt) (w : JWriter) (f : StoreFacade)
    (c : Container) (fv : FieldMap)
    (hreal : w.real_storage_writer = some f)
    (hopen : f.isOpen = true)
    (hev : c.container_type = "event")
    (hfv : GetFieldValues fmt c (resolveEventData f c)
      (resolveEventDataStream f (resolveEventData f c)) (resolveEventTag f c) = .ok fv) :
    (w.AddAttributeContainer fmt c).error = none ∧
    (w.AddAttributeContainer fmt c).writer.real_storage_writer =
      some { f with stored := f.stored ++ [c] } := by
  unfold JWriter.AddAttributeContainer
  rw [hreal]
  simp only [hev, if_true, reduceIte]
  rw [hfv]
  simp [StoreFacade.addContainer, hopen]

/-- C1 witness: the amended statement evaluated on a concrete opened writer
and event. -/
theorem C1_witness :
    ((newWriter none).OpenWriter.AddAttributeContainer okFmt evPlain).error = none ∧
    ((newWriter none).OpenWriter.AddAttributeContainer okFmt evPlain).writer.real_storage_writer =
      some { isOpen := true, stored := [evPlain], updated := [], table := [] } :=
  C1_persisted_when_map_builds okFmt _ _ evPlain _ rfl rfl rfl rfl

/-! ### Claim C2 -/

/-- C2 counterexample: `Open` never called, then `AddAttributeContainer`
with an event container: the call does fail with the not-writable failure
raised by the delegated store and the durable store stays untouched, but a
JSON line HAS been emitted, refuting the claim that no JSON line is
emitted. -/
theorem C2_counterexample :
    ((newWriter none).AddAttributeContainer okFmt evPlain).error = some .notWritable ∧
    ((newWriter none).AddAttributeContainer okFmt evPlain).emitted.isSome = true ∧
    ((newWriter none).AddAttributeContainer okFmt evPlain).writer.real_storage_writer.map
      (fun f => f.stored) = some [] :=
  ⟨rfl, rfl, rfl⟩

/-- C2 (amended): a mutating call made while the delegated store is not
open fails -- `UpdateAttributeContainer` and a non-event
`AddAttributeContainer` fail with the delegated store's not-writable
failure, and an event `AddAttributeContainer` whose projection succeeds
also fails with that not-writable failure -- and the writer state
(including the durable store contents) is unchanged; however the JSON line
of an event container is still emitted before the failure, since the
writer's own `_RaiseIfNotWritable` guard is not consulted by these calls
and would not fire anyway (the delegate reference is always set). -/
theorem C2_not_open_rejected (fmt : Fmt) (w : JWriter) (f : StoreFacade) (c : Container)
    (hreal : w.real_storage_writer = some f)
    (hclosed : f.isOpen = false) :
    ((w.AddAttributeContainer fmt c).writer = w ∧
     (w.AddAttributeContainer fmt c).error ≠ none ∧
     (c.container_type ≠ "event" →
       (w.AddAttributeContainer fmt c).error = some .notWritable) ∧
     (∀ fv, GetFieldValues fmt c (resolveEventData f c)
        (resolveEventDataStream f (resolveEventData f c)) (resolveEventTag f c) = .ok fv →
        (w.AddAttributeContainer fmt c).error = some .notWritable)) ∧
    ((w.UpdateAttributeContainer c).1 = some .notWritable ∧
     (w.UpdateAttributeContainer c).2 = w) := by
  constructor
  · by_cases hev : c.container_type = "event"
    · cases hq : GetFieldValues fmt c (resolveEventData f c)
          (resolveEventDataStream f (resolveEventData f c)) (resolveEventTag f c) with
      | error e =>
          refine ⟨?_, ?_, fun hne => absurd hev hne, fun fv2 hfv2 => ?_⟩
          · simp [JWriter.AddAttributeContainer, hreal, hev, hq]
          · simp [JWriter.AddAttributeContainer, hreal, hev, hq]
          · exact Except.noConfusion hfv2
      | ok fv =>
          refine ⟨?_, ?_, fun hne => absurd hev hne, fun fv2 hfv2 => ?_⟩ <;>
            simp [JWriter.AddAttributeContainer, hreal, hev, hq,
              StoreFacade.addContainer, hclosed]
    · refine ⟨?_, ?_, fun hne => ?_, fun fv2 hfv2 => ?_⟩ <;>
        simp [JWriter.AddAttributeContainer, hreal, hev,
          StoreFacade.addContainer, hclosed]
  · unfold JWriter.UpdateAttributeContainer
    rw [hreal]
    simp [StoreFacade.updateContainer, hclosed]

/-- C2 witness: the amended statement evaluated on a writer whose `Open`
was never called. -/
theorem C2_witness :
    ((newWriter none).AddAttributeContainer okFmt evPlain).writer = newWriter none ∧
    ((newWriter none).UpdateAttributeContainer evPlain).1 = some .notWritable :=
  ⟨(C2_not_open_rejected okFmt _ _ evPlain rfl rfl).1.1,
   (C2_not_open_rejected okFmt _ _ evPlain rfl rfl).2.1⟩

/-! ### Claim C3 -/

/-- C3 counterexample: for an event with no related records and no
`display_name` attribute of its own, the emitted map nevertheless contains
a `display_name` key (a generated field), which is neither a marker field,
nor one of the event's own attributes, nor `message` -- refuting the claim
that the map contains exactly those. -/
theorem C3_counterexample :
    (GetFieldValues okFmt evPlain none none none).toOption.map
      (fun m => dictContains m "display_name") = some true ∧
    evPlain.attributes.map Prod.fst = ["timestamp"] ∧
    "display_name" ∉ ["timestamp", "__container_type__", "__type__", "message"] :=
  ⟨rfl, rfl, by decide⟩

/-- C3 (amended): for a primary event with no related records resolved,
the emitted map's keys are exactly the two marker fields, the event's own
non-identifier attribute names, the three generated field names
(`display_name`, `filename`, `inode`), and `message`; in particular a
`tag` key is present only when the event itself carries a non-identifier
attribute named `tag`. -/
theorem C3_keys_no_related (fmt : Fmt) (ev : Container) (m : FieldMap)
    (h : GetFieldValues fmt ev none none none = .ok m) :
    (∀ k, dictContains m k = true ↔
      (k = "__container_type__" ∨ k = "__type__" ∨
       (∃ v, (k, v) ∈ ev.attributes ∧ isIdentifier v = false) ∨
       k ∈ ["display_name", "filename", "inode"] ∨ k = "message")) ∧
    (dictContains m "tag" = true ↔
      ∃ v, ("tag", v) ∈ ev.attributes ∧ isIdentifier v = false) := by
  simp only [GetFieldValues] at h
  cases hg : applyGenerated fmt ev none none none
      (applyEvent [("__container_type__", AttrValue.str "event"),
        ("__type__", AttrValue.str "AttributeContainer")] ev.attributes)
      ["display_name", "filename", "inode"] with
  | error e => rw [hg] at h; cases h
  | ok acc2 =>
      rw [hg] at h
      cases hm : fmt "message" ev none none none with
      | error e => rw [hm] at h; cases h
      | ok mv =>
          rw [hm] at h
          simp only at h
          obtain rfl : dictSet acc2 "message" mv = m := Except.ok.inj h
          have main : ∀ k, dictContains (dictSet acc2 "message" mv) k = true ↔
              (k = "__container_type__" ∨ k = "__type__" ∨
               (∃ v, (k, v) ∈ ev.attributes ∧ isIdentifier v = false) ∨
               k ∈ ["display_name", "filename", "inode"] ∨ k = "message") := by
            intro k
            rw [dictContains_dictSet,
              applyGenerated_contains fmt ev none none none _ acc2 _ k hg,
              applyEvent_contains]
            have hbase :
                dictContains [("__container_type__", AttrValue.str "event"),
                  ("__type__", AttrValue.str "AttributeContainer")] k = true ↔
                (k = "__container_type__" ∨ k = "__type__") := by
              by_cases h1 : "__container_type__" = k
              · simp [dictContains, dictGet, ← h1]
              · by_cases h2 : "__type__" = k
                · simp [dictContains, dictGet, h1, ← h2]
                · simp [dictContains, dictGet, h1, h2, Ne.symm h1, Ne.symm h2]
            rw [hbase]
            constructor
            · rintro (hk | (((hk | hk) | hk) | hk))
              · exact .inr (.inr (.inr (.inr hk)))
              · exact .inl hk
              · exact .inr (.inl hk)
              · exact .inr (.inr (.inl hk))
              · exact .inr (.inr (.inr (.inl hk)))
            · rintro (hk | hk | hk | hk | hk)
              · exact .inr (.inl (.inl (.inl hk)))
              · exact .inr (.inl (.inl (.inr hk)))
              · exact .inr (.inl (.inr hk))
              · exact .inr (.inr hk)
              · exact .inl hk
          refine ⟨main, ?_⟩
          rw [main "tag"]
          simp

/-- C3 witness: the amended statement evaluated on a concrete event with
no related records. -/
theorem C3_witness :
    ∃ m, GetFieldValues okFmt evPlain none none none = .ok m ∧
      (dictContains m "tag" = true ↔
        ∃ v, ("tag", v) ∈ evPlain.attributes ∧ isIdentifier v = false) :=
  ⟨_, rfl, (C3_keys_no_related okFmt evPlain _ rfl).2⟩

/-! ### Claim C4 -/

/-- C4 counterexample: an event whose `display_name` attribute is
explicitly `None`: the emitted map keeps the `None` value (the formatting
helper, which would have returned a computed value, is not invoked),
refuting the claim that presence-with-null triggers recomputation. -/
theorem C4_counterexample :
    (GetFieldValues okFmt evNullName none none none).toOption.map
      (fun m => dictGet m "display_name") = some (some .null) ∧
    okFmt "display_name" evNullName none none none = .ok (.str "f_display_name") :=
  ⟨rfl, rfl⟩

/-- C4 (amended): in the generated-field fallback, only genuine absence
triggers computation: for each of `display_name`, `filename` and `inode`,
a field already present in the map -- even one whose value is explicitly
null -- is left untouched, while an absent field is computed by the
formatting helper and inserted. -/
theorem C4_generated_absent_only (fmt : Fmt) (event : Container)
    (ed eds tag : Option Container) (acc acc' : FieldMap) (f : String)
    (hf : f ∈ ["display_name", "filename", "inode"])
    (h : applyGenerated fmt event ed eds tag acc
      ["display_name", "filename", "inode"] = .ok acc') :
    (dictContains acc f = true → dictGet acc' f = dictGet acc f) ∧
    (dictContains acc f = false →
      ∃ w, fmt f event ed eds tag = .ok w ∧ dictGet acc' f = some w) := by
  constructor
  · intro hc
    exact applyGenerated_preserves fmt event ed eds tag acc acc' _ f hc h
  · intro hc
    exact applyGenerated_computes fmt event ed eds tag acc acc' _ f
      (by decide) hf hc h

/-- C4 witness: the amended statement evaluated on a map carrying an
explicitly-null `display_name`. -/
theorem C4_witness :
    ∃ acc', applyGenerated okFmt evPlain none none none
        [("display_name", AttrValue.null)]
        ["display_name", "filename", "inode"] = .ok acc' ∧
      dictGet acc' "display_name" =
        dictGet [("display_name", AttrValue.null)] "display_name" :=
  ⟨_, rfl,
    (C4_generated_absent_only okFmt evPlain none none none
      [("display_name", AttrValue.null)] _ "display_name"
      (by decide) rfl).1 rfl⟩

/-! ### Claim C5 -/

/-- C5 counterexample: an identifier-typed attribute on the stream
metadata record is copied raw into the emitted map (the stream loop has no
type-based exclusion), refuting the claim that identifier-typed values
never appear as leaf values. -/
theorem C5_counterexample :
    (GetFieldValues okFmt evPlain none (some edsBad) none).toOption.map
      (fun m => dictGet m "owner_ref") = some (some (.identifier 7)) ∧
    isIdentifier (.identifier 7) = true :=
  ⟨rfl, rfl⟩

/-- C5 (amended): type-based exclusion is per-source.  Values entering the
map from the secondary-data loop are formatting-helper outputs (so, when
the helper returns no identifier or raw temporal values, neither appears
there), and values entering from the primary-record loop are never
identifier-typed; but stream-metadata attributes are copied raw with no
type-based exclusion, as the counterexample shows. -/
theorem C5_type_exclusions (fmt : Fmt) (event ed : Container)
    (eds tag : Option Container) (acc acc' : FieldMap)
    (l : List (String × AttrValue)) :
    ((∀ n w, fmt n event (some ed) eds tag = .ok w →
        isIdentifier w = false ∧ isDateTime w = false) →
      applyEventData fmt event ed eds tag acc l = .ok acc' →
      ∀ k v, dictGet acc' k = some v →
        dictGet acc k = some v ∨ (isIdentifier v = false ∧ isDateTime v = false)) ∧
    (∀ k v, dictGet (applyEvent acc l) k = some v →
      dictGet acc k = some v ∨ isIdentifier v = false) := by
  constructor
  · intro hfmt h k v hget
    exact applyEventData_new_value fmt event ed eds tag acc acc' l k v hfmt h hget
  · intro k v hget
    exact applyEvent_get_new acc l k v hget

/-- C5 witness: the amended statement evaluated on concrete loops. -/
theorem C5_witness :
    (dictGet ([] : FieldMap) "a" = some (.str "f_a") ∨
      (isIdentifier (.str "f_a") = false ∧ isDateTime (.str "f_a") = false)) ∧
    (dictGet ([] : FieldMap) "b" = some (.int 2) ∨ isIdentifier (.int 2) = false) :=
  ⟨(C5_type_exclusions okFmt evPlain edShared none none []
      [("a", AttrValue.str "f_a")] [("a", AttrValue.str "x")]).1
      (fun n w hw => by
        simp only [okFmt] at hw
        obtain rfl := Except.ok.inj hw
        exact ⟨rfl, rfl⟩)
      rfl "a" (.str "f_a") rfl,
   (C5_type_exclusions okFmt evPlain edShared none none [] []
      [("b", AttrValue.int 2)]).2 "b" (.int 2) rfl⟩

/-! ### Claim C6 -/

/-- C6 counterexample: `_parser_chain` occurring on the stream metadata
record is copied raw under its internal name, refuting the claim that on
every input the merged map never carries the key `_parser_chain`. -/
theorem C6_counterexample :
    (GetFieldValues okFmt evPlain none (some edsBad) none).toOption.map
      (fun m => dictContains m "_parser_chain") = some true :=
  rfl

/-- C6 (amended): renaming is per-source.  The secondary-data loop never
inserts a key with a leading underscore (in particular never
`_parser_chain`) and carries the provenance attribute's rendered value
under `parser`; the stream loop never inserts under `path_spec` and
carries the path-specification attribute under `pathspec` as a serialized
dict-shaped value, never the raw object; but `_parser_chain` occurring on
the stream metadata (or primary) record keeps its internal name, as the
counterexample shows. -/
theorem C6_renaming (fmt : Fmt) (event ed : Container) (eds tag : Option Container)
    (acc acc' : FieldMap) (l : List (String × AttrValue)) :
    ((∀ k, headIsUnderscore k = true →
        applyEventData fmt event ed eds tag acc l = .ok acc' →
        dictGet acc' k = dictGet acc k)) ∧
    (∀ v, (l.map Prod.fst).Nodup → ("_parser_chain", v) ∈ l →
      isIdentifier v = false → isDateTime v = false → isDateTimeList v = false →
      "parser" ∉ l.map Prod.fst →
      applyEventData fmt event ed eds tag acc l = .ok acc' →
      ∃ w, fmt "_parser_chain" event (some ed) eds tag = .ok w ∧
        dictGet acc' "parser" = some w) ∧
    (dictGet (applyStream acc l) "path_spec" = dictGet acc "path_spec") ∧
    (∀ v, (l.map Prod.fst).Nodup → ("path_spec", v) ∈ l →
      "pathspec" ∉ l.map Prod.fst →
      dictGet (applyStream acc l) "pathspec" = some (WriteSerializedDict v) ∧
      isDict (WriteSerializedDict v) = true) := by
  refine ⟨?_, ?_, ?_, ?_⟩
  · intro k hk h
    exact applyEventData_underscore fmt event ed eds tag acc acc' l k hk h
  · intro v hnd hmem hid hdt hdtl hpn h
    exact applyEventData_provenance fmt event ed eds tag acc acc' l v hnd hmem
      hid hdt hdtl hpn h
  · exact applyStream_path_spec acc l
  · intro v hnd hmem hpn
    exact ⟨applyStream_pathspec acc l v hnd hmem hpn, rfl⟩

/-- C6 witness: the amended statement evaluated on concrete loops. -/
theorem C6_witness :
    dictGet [("x", AttrValue.str "f_x")] "_parser_chain" =
      dictGet ([] : FieldMap) "_parser_chain" ∧
    (∃ w, okFmt "_parser_chain" evPlain (some edShared) none none = .ok w ∧
      dictGet [("parser", AttrValue.str "f__parser_chain")] "parser" = some w) ∧
    dictGet (applyStream [] [("path_spec", AttrValue.str "/x")]) "path_spec" =
      dictGet ([] : FieldMap) "path_spec" ∧
    (dictGet (applyStream [] [("path_spec", AttrValue.str "/x")]) "pathspec" =
      some (WriteSerializedDict (.str "/x")) ∧
     isDict (WriteSerializedDict (.str "/x")) = true) :=
  ⟨(C6_renaming okFmt evPlain edShared none none [] [("x", AttrValue.str "f_x")]
      [("x", AttrValue.str "v")]).1 "_parser_chain" rfl rfl,
   (C6_renaming okFmt evPlain edShared none none []
      [("parser", AttrValue.str "f__parser_chain")]
      [("_parser_chain", AttrValue.str "A,B")]).2.1 (.str "A,B")
      (by decide) (List.mem_cons_self _ _) rfl rfl rfl (by decide) rfl,
   (C6_renaming okFmt evPlain edShared none none [] []
      [("path_spec", AttrValue.str "/x")]).2.2.1,
   (C6_renaming okFmt evPlain edShared none none [] []
      [("path_spec", AttrValue.str "/x")]).2.2.2 (.str "/x")
      (by decide) (List.mem_cons_self _ _) (by decide)⟩

/-! ### Claim C7 -/

/-- C7 counterexample: the field name `ref` is present on both the
secondary-data record and the primary record, but the primary record's
value is identifier-typed and is skipped, so the final map carries the
value rendered from the secondary-data record -- refuting the claim that
the final value is always the one derived from the primary record. -/
theorem C7_counterexample :
    (GetFieldValues okFmt evShared (some edShared) none none).toOption.map
      (fun m => dictGet m "ref") = some (some (.str "f_ref")) ∧
    evShared.attributes = [("ref", .identifier 3)] ∧
    edShared.attributes = [("ref", .str "sec")] ∧
    okFmt "ref" evShared (some edShared) none none = .ok (.str "f_ref") :=
  ⟨rfl, rfl, rfl, rfl⟩

/-- C7 (amended): for a field name present on both the secondary-data
record and the primary record, the completed map carries the
primary-record value (serialized for `date_time`, raw otherwise), provided
the primary value survives the primary loop's own filtering (it is not
identifier-typed) and the name is not `message` (always overwritten) nor
`tag` while a tag record is present (overwritten by the nested tag map). -/
theorem C7_primary_precedence (fmt : Fmt) (ev ed : Container)
    (eds tag : Option Container) (m : FieldMap) (n : String) (v v' : AttrValue)
    (hnd : (ev.attributes.map Prod.fst).Nodup)
    (hmem : (n, v) ∈ ev.attributes)
    (hsec : (n, v') ∈ ed.attributes)
    (hid : isIdentifier v = false)
    (hmsg : n ≠ "message")
    (htag : tag = none ∨ n ≠ "tag")
    (h : GetFieldValues fmt ev (some ed) eds tag = .ok m) :
    dictGet m n = some (if n = "date_time" then WriteSerializedDict v else v) := by
  simp only [GetFieldValues] at h
  cases h1 : applyEventData fmt ev ed eds tag
      [("__container_type__", AttrValue.str "event"),
       ("__type__", AttrValue.str "AttributeContainer")] ed.attributes with
  | error e => rw [h1] at h; cases h
  | ok acc1 =>
      rw [h1] at h
      simp only at h
      generalize (match eds with
        | some x => applyStream acc1 x.attributes
        | none => acc1) = accS at h
      cases hg : applyGenerated fmt ev (some ed) eds tag
          (applyEvent accS ev.attributes)
          ["display_name", "filename", "inode"] with
      | error e => rw [hg] at h; cases h
      | ok acc2 =>
          rw [hg] at h
          cases hm : fmt "message" ev (some ed) eds tag with
          | error e => rw [hm] at h; cases h
          | ok mv =>
              rw [hm] at h
              simp only at h
              have hacc3 : dictGet (applyEvent accS ev.attributes) n =
                  some (if n = "date_time" then WriteSerializedDict v else v) :=
                applyEvent_get_mem _ ev.attributes n v hnd hmem hid
              have hc : dictContains (applyEvent accS ev.attributes) n = true := by
                simp [dictContains, hacc3]
              have hacc4 : dictGet acc2 n =
                  some (if n = "date_time" then WriteSerializedDict v else v) := by
                rw [applyGenerated_preserves fmt ev (some ed) eds tag _ acc2 _ n hc hg]
                exact hacc3
              cases tag with
              | none =>
                  obtain rfl : dictSet acc2 "message" mv = m := Except.ok.inj h
                  rw [dictGet_dictSet_ne _ _ _ _ hmsg]
                  exact hacc4
              | some t =>
                  obtain rfl :
                      dictSet (dictSet acc2 "message" mv) "tag"
                        (.dict (tagValues t)) = m := Except.ok.inj h
                  have hnt : n ≠ "tag" := by
                    rcases htag with hco | hne
                    · cases hco
                    · exact hne
                  rw [dictGet_dictSet_ne _ _ _ _ hnt,
                    dictGet_dictSet_ne _ _ _ _ hmsg]
                  exact hacc4

/-- C7 witness: the amended statement evaluated on a concrete shared field
name with a non-identifier primary value. -/
theorem C7_witness :
    ∃ m, GetFieldValues okFmt evPlain (some edTs) none none = .ok m ∧
      dictGet m "timestamp" = some (.int 5) :=
  ⟨_, rfl, by
    have := C7_primary_precedence okFmt evPlain edTs none none _
      "timestamp" (.int 5) (.str "sec-ts") (by decide)
      (List.mem_cons_self _ _) (List.mem_cons_self _ _) rfl
      (by decide) (.inl rfl) rfl
    simpa using this⟩

/-! ### Claim C8 -/

/-- C8 (confirmed): when JSON encoding of the completed field-value map
fails, the record is silently dropped from the JSON stream --
`AddAttributeContainer` raises nothing, no line is emitted, the durable
write still occurs -- and the next record's durable write and JSON
emission are unaffected. -/
theorem C8_encoding_failure_contained (fmt : Fmt) (w : JWriter) (f : StoreFacade)
    (c c₂ : Container) (fv fv₂ : FieldMap) (s₂ : String)
    (hreal : w.real_storage_writer = some f)
    (hopen : f.isOpen = true)
    (hev : c.container_type = "event")
    (hfv : GetFieldValues fmt c (resolveEventData f c)
      (resolveEventDataStream f (resolveEventData f c)) (resolveEventTag f c) = .ok fv)
    (henc : jsonEncode fv = .error ())
    (hev₂ : c₂.container_type = "event")
    (hfv₂ : GetFieldValues fmt c₂
      (resolveEventData { f with stored := f.stored ++ [c] } c₂)
      (resolveEventDataStream { f with stored := f.stored ++ [c] }
        (resolveEventData { f with stored := f.stored ++ [c] } c₂))
      (resolveEventTag { f with stored := f.stored ++ [c] } c₂) = .ok fv₂)
    (henc₂ : jsonEncode fv₂ = .ok s₂) :
    (w.AddAttributeContainer fmt c).error = none ∧
    (w.AddAttributeContainer fmt c).emitted = none ∧
    (w.AddAttributeContainer fmt c).writer.real_storage_writer =
      some { f with stored := f.stored ++ [c] } ∧
    ((w.AddAttributeContainer fmt c).writer.AddAttributeContainer fmt c₂).error = none ∧
    ((w.AddAttributeContainer fmt c).writer.AddAttributeContainer fmt c₂).emitted = some s₂ ∧
    ((w.AddAttributeContainer fmt c).writer.AddAttributeContainer fmt c₂).writer.real_storage_writer =
      some { f with stored := (f.stored ++ [c]) ++ [c₂] } := by
  have h1 : w.AddAttributeContainer fmt c =
      ⟨none, { w with real_storage_writer := some ({ f with stored := f.stored ++ [c] }) }, none⟩ := by
    simp [JWriter.AddAttributeContainer, hreal, hev, hfv, henc,
      StoreFacade.addContainer, hopen]
  rw [h1]
  rw [hopen] at hfv₂
  refine ⟨rfl, rfl, rfl, ?_, ?_, ?_⟩ <;>
    simp [JWriter.AddAttributeContainer, hev₂, hfv₂, henc₂,
      StoreFacade.addContainer, hopen]

/-- C8 witness: a first event whose map holds a raw (non-serializable)
date-time value is dropped from the stream but persisted; the next event
is emitted and persisted. -/
theorem C8_witness :
    ∃ s₂,
      ((newWriter none).OpenWriter.AddAttributeContainer okFmt evRawDT).error = none ∧
      ((newWriter none).OpenWriter.AddAttributeContainer okFmt evRawDT).emitted = none ∧
      (((newWriter none).OpenWriter.AddAttributeContainer okFmt
        evRawDT).writer.AddAttributeContainer okFmt evPlain).emitted = some s₂ :=
  ⟨_,
   (C8_encoding_failure_contained okFmt ((newWriter none).OpenWriter) _
     evRawDT evPlain _ _ _ rfl rfl rfl rfl rfl rfl rfl rfl).1,
   (C8_encoding_failure_contained okFmt ((newWriter none).OpenWriter) _
     evRawDT evPlain _ _ _ rfl rfl rfl rfl rfl rfl rfl rfl).2.1,
   (C8_encoding_failure_contained okFmt ((newWriter none).OpenWriter) _
     evRawDT evPlain _ _ _ rfl rfl rfl rfl rfl rfl rfl rfl).2.2.2.2.1⟩

/-! ### Claim C10 -/

/-- C10 (confirmed): the `output_file` constructor argument is stored but
never read -- every JSON line goes to stdout via `print` -- so two writers
constructed with different `output_file` values have identical emission,
error and durable-store behaviour on every container. -/
theorem C10_output_file_unused (of₁ of₂ : Option Nat) (fmt : Fmt) (c : Container) :
    ((newWriter of₁).OpenWriter.AddAttributeContainer fmt c).emitted =
      ((newWriter of₂).OpenWriter.AddAttributeContainer fmt c).emitted ∧
    ((newWriter of₁).OpenWriter.AddAttributeContainer fmt c).error =
      ((newWriter of₂).OpenWriter.AddAttributeContainer fmt c).error ∧
    ((newWriter of₁).OpenWriter.AddAttributeContainer fmt c).writer.real_storage_writer =
      ((newWriter of₂).OpenWriter.AddAttributeContainer fmt c).writer.real_storage_writer := by
  have hw : ∀ of : Option Nat, (newWriter of).OpenWriter =
      { output_file := of,
        real_storage_writer :=
          some ({ isOpen := true, stored := [], updated := [], table := [] }),
        store := some true } := fun _ => rfl
  rw [hw of₁, hw of₂]
  by_cases hev : c.container_type = "event"
  · cases hq : GetFieldValues fmt c
        (resolveEventData { isOpen := true, stored := [], updated := [], table := [] } c)
        (resolveEventDataStream { isOpen := true, stored := [], updated := [], table := [] }
          (resolveEventData { isOpen := true, stored := [], updated := [], table := [] } c))
        (resolveEventTag { isOpen := true, stored := [], updated := [], table := [] } c) with
    | error e =>
        refine ⟨?_, ?_, ?_⟩ <;>
          simp [JWriter.AddAttributeContainer, hev, hq, StoreFacade.addContainer]
    | ok fv =>
        refine ⟨?_, ?_, ?_⟩ <;>
          simp [JWriter.AddAttributeContainer, hev, hq, StoreFacade.addContainer]
  · refine ⟨?_, ?_, ?_⟩ <;>
      simp [JWriter.AddAttributeContainer, hev, StoreFacade.addContainer]

/-! ### Lemmas about the JSON encoder -/

theorem sortFields_eq_of_perm (l₁ l₂ : List (String × AttrValue))
    (hnd : (l₁.map Prod.fst).Nodup) (hp : l₁.Perm l₂) :
    sortFields l₁ = sortFields l₂ := by
  have hperm : (sortFields l₁).Perm (sortFields l₂) :=
    (List.perm_insertionSort keyLe l₁).trans
      (hp.trans (List.perm_insertionSort keyLe l₂).symm)
  have hstrict : ∀ l : List (String × AttrValue), (l.map Prod.fst).Nodup →
      List.Pairwise (fun p q : String × AttrValue => keyLe p q ∧ p.1 ≠ q.1)
        (sortFields l) := by
    intro l hl
    haveI : IsTotal (String × AttrValue) keyLe :=
      ⟨fun p q => lexLe_total p.1.data q.1.data⟩
    haveI : IsTrans (String × AttrValue) keyLe :=
      ⟨fun _ _ _ h h' => lexLe_trans _ _ _ h h'⟩
    have hs : List.Pairwise keyLe (sortFields l) :=
      List.sorted_insertionSort keyLe l
    have hnodup : ((sortFields l).map Prod.fst).Nodup :=
      (((List.perm_insertionSort keyLe l).map Prod.fst).nodup_iff).mpr hl
    have hne : List.Pairwise (fun p q : String × AttrValue => p.1 ≠ q.1)
        (sortFields l) := List.pairwise_map.mp hnodup
    exact hs.and hne
  have hnd₂ : (l₂.map Prod.fst).Nodup := ((hp.map Prod.fst).nodup_iff).mp hnd
  haveI : IsAntisymm (String × AttrValue) (fun p q => keyLe p q ∧ p.1 ≠ q.1) :=
    ⟨fun a b hab hba => absurd (strLe_antisymm _ _ hab.1 hba.1) hab.2⟩
  exact List.eq_of_perm_of_sorted hperm (hstrict l₁ hnd) (hstrict l₂ hnd₂)

theorem listExcept_mem (es : List (Except Unit String)) (ss : List String)
    (h : listExcept es = .ok ss) (s : String) (hs : s ∈ ss) :
    Except.ok s ∈ es := by
  induction es generalizing ss with
  | nil =>
      obtain rfl : ([] : List String) = ss := by simpa [listExcept] using h
      cases hs
  | cons e rest ih =>
      cases e with
      | error u => simp [listExcept] at h
      | ok t =>
          simp only [listExcept] at h
          cases hr : listExcept rest with
          | error u => rw [hr] at h; cases h
          | ok ss' =>
              rw [hr] at h
              obtain rfl := Except.ok.inj h
              rcases List.mem_cons.mp hs with rfl | hs'
              · exact List.mem_cons_self _ _
              · exact List.mem_cons_of_mem _ (ih ss' hr hs')

theorem hexDigit_lt16_ne_newline (n : Nat) (h : n < 16) : hexDigit n ≠ '\n' := by
  have hall : ∀ i : Fin 16, hexDigit i.val ≠ '\n' := by decide
  exact hall ⟨n, h⟩

theorem escapeChar_ne_newline (c : Char) : '\n' ∉ escapeChar c := by
  unfold escapeChar
  by_cases h1 : c = '"'
  · rw [if_pos h1]; decide
  · rw [if_neg h1]
    by_cases h2 : c = '\\'
    · rw [if_pos h2]; decide
    · rw [if_neg h2]
      by_cases h3 : c = '\n'
      · rw [if_pos h3]; decide
      · rw [if_neg h3]
        by_cases h4 : c = '\t'
        · rw [if_pos h4]; decide
        · rw [if_neg h4]
          by_cases h5 : c = '\r'
          · rw [if_pos h5]; decide
          · rw [if_neg h5]
            by_cases h6 : c.toNat = 8
            · rw [if_pos h6]; decide
            · rw [if_neg h6]
              by_cases h7 : c.toNat = 12
              · rw [if_pos h7]; decide
              · rw [if_neg h7]
                by_cases h8 : c.toNat < 32
                · rw [if_pos h8]
                  intro hmem
                  simp only [List.mem_cons, List.not_mem_nil, or_false] at hmem
                  rcases hmem with h | h | h | h | h | h
                  · exact absurd h (by decide)
                  · exact absurd h (by decide)
                  · exact absurd h (by decide)
                  · exact absurd h (by decide)
                  · exact hexDigit_lt16_ne_newline _ (by omega) h.symm
                  · exact hexDigit_lt16_ne_newline _ (by omega) h.symm
                · rw [if_neg h8]
                  intro hmem
                  have h := List.mem_singleton.mp hmem
                  exact h3 h.symm

theorem escapeString_ne_newline (s : String) : '\n' ∉ (escapeString s).data := by
  unfold escapeString
  intro hmem
  obtain ⟨l, hl, hc⟩ := List.mem_flatten.mp hmem
  obtain ⟨c, _, rfl⟩ := List.mem_map.mp hl
  exact escapeChar_ne_newline c hc

theorem quoteJSON_ne_newline (s : String) : '\n' ∉ (quoteJSON s).data := by
  unfold quoteJSON
  intro hmem
  simp only [String.data_append] at hmem
  rcases List.mem_append.mp hmem with hmem | hmem
  · rcases List.mem_append.mp hmem with hmem | hmem
    · exact absurd hmem (by decide)
    · exact escapeString_ne_newline s hmem
  · exact absurd hmem (by decide)

theorem joinComma_ne_newline (parts : List String)
    (hall : ∀ p ∈ parts, '\n' ∉ p.data) : '\n' ∉ (joinComma parts).data := by
  induction parts with
  | nil => intro hmem; simp [joinComma] at hmem
  | cons s rest ih =>
      cases rest with
      | nil => simpa [joinComma] using hall s (List.mem_cons_self _ _)
      | cons t rest' =>
          intro hmem
          simp only [joinComma, String.data_append] at hmem
          rcases List.mem_append.mp hmem with h1 | h2
          · rcases List.mem_append.mp h1 with h3 | h4
            · exact hall s (List.mem_cons_self _ _) h3
            · exact absurd h4 (by decide)
          · refine ih (fun p hp => hall p (List.mem_cons_of_mem _ hp)) ?_
            simpa [joinComma] using h2

theorem digitChar_ne_newline (n : Nat) : Nat.digitChar n ≠ '\n' := by
  by_cases h : n < 16
  · have hall : ∀ i : Fin 16, Nat.digitChar i.val ≠ '\n' := by decide
    exact hall ⟨n, h⟩
  · unfold Nat.digitChar
    have e0 : ¬ (n = 0) := by omega
    have e1 : ¬ (n = 1) := by omega
    have e2 : ¬ (n = 2) := by omega
    have e3 : ¬ (n = 3) := by omega
    have e4 : ¬ (n = 4) := by omega
    have e5 : ¬ (n = 5) := by omega
    have e6 : ¬ (n = 6) := by omega
    have e7 : ¬ (n = 7) := by omega
    have e8 : ¬ (n = 8) := by omega
    have e9 : ¬ (n = 9) := by omega
    have ea : ¬ (n = 10) := by omega
    have eb : ¬ (n = 11) := by omega
    have ec : ¬ (n = 12) := by omega
    have ed : ¬ (n = 13) := by omega
    have ee : ¬ (n = 14) := by omega
    have ef : ¬ (n = 15) := by omega
    simp [e0, e1, e2, e3, e4, e5, e6, e7, e8, e9, ea, eb, ec, ed, ee, ef]

theorem toDigitsCore_ne_newline (b : Nat) (fuel : Nat) :
    ∀ (n : Nat) (acc : List Char), (∀ c ∈ acc, c ≠ '\n') →
      ∀ c ∈ Nat.toDigitsCore b fuel n acc, c ≠ '\n' := by
  induction fuel with
  | zero => intro n acc hacc c hc; exact hacc c hc
  | succ f ih =>
      intro n acc hacc c hc
      simp only [Nat.toDigitsCore] at hc
      have hcons : ∀ x ∈ Nat.digitChar (n % b) :: acc, x ≠ '\n' := by
        intro x hx
        rcases List.mem_cons.mp hx with rfl | hx'
        · exact digitChar_ne_newline _
        · exact hacc x hx'
      by_cases hz : n / b = 0
      · rw [if_pos hz] at hc
        exact hcons c hc
      · rw [if_neg hz] at hc
        exact ih _ _ hcons c hc

theorem natRepr_ne_newline (n : Nat) : '\n' ∉ (Nat.repr n).data := by
  intro hmem
  exact toDigitsCore_ne_newline 10 (n + 1) n [] (by simp) '\n' hmem rfl

theorem intToString_ne_newline (n : Int) : '\n' ∉ (toString n).data := by
  cases n with
  | ofNat m => exact natRepr_ne_newline m
  | negSucc m =>
      intro hmem
      have hmem' : '\n' ∈ ("-" ++ Nat.repr (m + 1)).data := hmem
      rw [String.data_append] at hmem'
      rcases List.mem_append.mp hmem' with h | h
      · exact absurd h (by decide)
      · exact natRepr_ne_newline (m + 1) h

theorem encodeV_ne_newline (fuel : Nat) :
    ∀ (v : AttrValue) (s : String), encodeV fuel v = .ok s → '\n' ∉ s.data := by
  induction fuel with
  | zero => intro v s h; simp [encodeV] at h
  | succ f ih =>
      intro v s h
      cases v with
      | null =>
          simp only [encodeV] at h
          obtain rfl := Except.ok.inj h
          decide
      | bool b =>
          simp only [encodeV] at h
          obtain rfl := Except.ok.inj h
          cases b <;> decide
      | int n =>
          simp only [encodeV] at h
          obtain rfl := Except.ok.inj h
          exact intToString_ne_newline n
      | str t =>
          simp only [encodeV] at h
          obtain rfl := Except.ok.inj h
          exact quoteJSON_ne_newline t
      | identifier i => simp [encodeV] at h
      | datetime d => simp [encodeV] at h
      | list xs =>
          simp only [encodeV] at h
          cases hl : listExcept (xs.map (encodeV f)) with
          | error e => rw [hl] at h; cases h
          | ok parts =>
              rw [hl] at h
              simp only at h
              obtain rfl := Except.ok.inj h
              have hparts : ∀ p ∈ parts, '\n' ∉ p.data := by
                intro p hp
                obtain ⟨v', _, hev'⟩ :=
                  List.mem_map.mp (listExcept_mem _ _ hl p hp)
                exact ih v' p hev'
              intro hmem
              simp only [String.data_append] at hmem
              rcases List.mem_append.mp hmem with h1 | h2
              · rcases List.mem_append.mp h1 with h3 | h4
                · exact absurd h3 (by decide)
                · exact joinComma_ne_newline parts hparts h4
              · exact absurd h2 (by decide)
      | dict fs =>
          simp only [encodeV] at h
          cases hl : listExcept ((sortFields fs).map
              (fun p => match encodeV f p.2 with
                | .error e => .error e
                | .ok s => .ok (quoteJSON p.1 ++ ": " ++ s))) with
          | error e => rw [hl] at h; cases h
          | ok parts =>
              rw [hl] at h
              simp only at h
              obtain rfl := Except.ok.inj h
              have hparts : ∀ p ∈ parts, '\n' ∉ p.data := by
                intro p hp
                obtain ⟨q, _, heq⟩ :=
                  List.mem_map.mp (listExcept_mem _ _ hl p hp)
                cases henc : encodeV f q.2 with
                | error e => rw [henc] at heq; cases heq
                | ok t =>
                    rw [henc] at heq
                    simp only at heq
                    obtain rfl := Except.ok.inj heq
                    intro hmem
                    simp only [String.data_append] at hmem
                    rcases List.mem_append.mp hmem with h1 | h2
                    · rcases List.mem_append.mp h1 with h3 | h4
                      · exact quoteJSON_ne_newline q.1 h3
                      · exact absurd h4 (by decide)
                    · exact ih q.2 t henc h2
              intro hmem
              simp only [String.data_append] at hmem
              rcases List.mem_append.mp hmem with h1 | h2
              · rcases List.mem_append.mp h1 with h3 | h4
                · exact absurd h3 (by decide)
                · exact joinComma_ne_newline parts hparts h4
              · exact absurd h2 (by decide)

/-! ### Claim C9 -/

/-- C9 (confirmed): JSON encoding of a field-value map is deterministic
and idempotent -- two maps with the same bindings (in any insertion order)
encode to byte-identical JSON; the object's keys are emitted in
lexicographic order; characters at or above `U+0080` are preserved
literally, never escaped; and a successful encoding is a single line (its
bytes never contain a newline). -/
theorem C9_encoding_deterministic :
    (∀ l₁ l₂ : FieldMap, (l₁.map Prod.fst).Nodup → l₁.Perm l₂ →
      jsonEncode l₁ = jsonEncode l₂) ∧
    (∀ l : List (String × AttrValue),
      List.Pairwise (fun a b => strLe a b = true) ((sortFields l).map Prod.fst)) ∧
    (∀ c : Char, 128 ≤ c.toNat → escapeChar c = [c]) ∧
    (∀ (fuel : Nat) (v : AttrValue) (s : String),
      encodeV fuel v = .ok s → '\n' ∉ s.data) := by
  refine ⟨?_, ?_, ?_, ?_⟩
  · intro l₁ l₂ hnd hp
    have hs : sortFields l₁ = sortFields l₂ := sortFields_eq_of_perm l₁ l₂ hnd hp
    show encodeV jsonRecursionLimit (.dict l₁) = encodeV jsonRecursionLimit (.dict l₂)
    rw [show jsonRecursionLimit = 999 + 1 from rfl]
    simp only [encodeV, hs]
  · intro l
    haveI : IsTotal (String × AttrValue) keyLe :=
      ⟨fun p q => lexLe_total p.1.data q.1.data⟩
    haveI : IsTrans (String × AttrValue) keyLe :=
      ⟨fun _ _ _ h h' => lexLe_trans _ _ _ h h'⟩
    exact List.pairwise_map.mpr (List.sorted_insertionSort keyLe l)
  · intro c hc
    unfold escapeChar
    rw [if_neg (fun h => by rw [h] at hc; exact absurd hc (by decide)),
      if_neg (fun h => by rw [h] at hc; exact absurd hc (by decide)),
      if_neg (fun h => by rw [h] at hc; exact absurd hc (by decide)),
      if_neg (fun h => by rw [h] at hc; exact absurd hc (by decide)),
      if_neg (fun h => by rw [h] at hc; exact absurd hc (by decide)),
      if_neg (by omega), if_neg (by omega), if_neg (by omega)]
  · exact encodeV_ne_newline

/-- C9 witness: the conjuncts evaluated at concrete inputs: a two-entry
map and its transposition encode identically, and a concrete non-ASCII
character and encoding are preserved and single-line. -/
theorem C9_witness :
    jsonEncode [("b", AttrValue.int 1), ("a", AttrValue.int 2)] =
      jsonEncode [("a", AttrValue.int 2), ("b", AttrValue.int 1)] ∧
    escapeChar 'é' = ['é'] ∧
    '\n' ∉ ("\"x\"" : String).data :=
  ⟨C9_encoding_deterministic.1 _ _ (by decide) (List.Perm.swap _ _ _),
   C9_encoding_deterministic.2.2.1 'é' (by decide),
   C9_encoding_deterministic.2.2.2 2 (.str "x") "\"x\"" rfl⟩

end JSONStreaming
